import Mathlib

/-!
Verification of `real-cancellable-promise` (TypeScript).

The development shallowly embeds the library's cancellation algebra as
executable Lean definitions and proves the specification's claims about it.

Sources embedded here:
* `src/src/Cancellation.ts` — the `Cancellation` error class.
* `src/src/CancellablePromise.ts` — `isPromiseWithCancel`, the
  `CancellablePromise` class (`then`, `finally`, `resolve`, `reject`,
  `all`, `allSettled`, `race`, `delay`).
* `src/unnamed/part_007` — `pseudoCancellable`, `buildCancellablePromise`.

Promises are modelled as single-settlement cells (`Leaf`): a settlement
state that is written at most once (first write wins, matching standard
promise semantics) plus a flag recording whether the cancel operation was
ever invoked.  Stateful code (the mutable flags inside `then`,
`pseudoCancellable`, `delay` and the capture registry of
`buildCancellablePromise`) becomes explicit state passed through small-step
functions driven by event traces, so that every interleaving the spec
talks about is a concrete list of events.
-/

namespace RCP

/-- Embeds the `Cancellation` class (src/src/Cancellation.ts lines 4-8):
an error carrying a message string. -/
structure Cancellation where
  message : String
deriving DecidableEq

/-- Embeds the `Cancellation` constructor
`constructor(message = 'Promise canceled.')`: when called with no
argument the default message applies. -/
def mkCancellation : Option String → Cancellation
  | none => ⟨"Promise canceled."⟩
  | some m => ⟨m⟩

/-- A rejection reason: either a `Cancellation` object or a domain error
(identified by a numeric code in the model). -/
inductive Reason where
  | cancellation (c : Cancellation)
  | err (n : Nat)
deriving DecidableEq

/-- Settlement of a promise: fulfilled with a value (values are `Nat` in
the model) or rejected with a reason. -/
inductive PromiseResult where
  | fulfilled (v : Nat)
  | rejected (r : Reason)
deriving DecidableEq

/-- A leaf `CancellablePromise`: its at-most-once settlement state plus a
flag recording whether its `cancel` function has ever been invoked. -/
structure Leaf where
  settled : Option PromiseResult
  cancelInvoked : Bool
deriving DecidableEq

/-- A freshly constructed, pending leaf promise. -/
def pendingLeaf : Leaf := ⟨none, false⟩

/-- First settlement wins: a later settlement attempt on an already
settled promise is a no-op (standard promise semantics, relied on by the
constructor contract in src/src/CancellablePromise.ts lines 51-59). -/
def leafSettle (r : PromiseResult) (l : Leaf) : Leaf :=
  { l with settled := some (l.settled.getD r) }

/-- The cancel operation of a leaf `CancellablePromise`, per the
documented constructor contract (src/src/CancellablePromise.ts lines
51-59) and the test helper `getPromise` (src/unnamed/part_004): cancel of
a pending promise rejects it with `new Cancellation()` (no argument, so
the default message); cancel after settlement is a no-op on the outcome.
The invocation itself is always recorded. -/
def leafCancel (l : Leaf) : Leaf :=
  ⟨some (l.settled.getD (.rejected (.cancellation (mkCancellation none)))), true⟩

/-! ## The duck-typed cancellability check (`isPromiseWithCancel`) -/

/-- A JavaScript value as far as `isPromiseWithCancel` can observe it:
`null`, `undefined`, a primitive, a function, or an object whose `then`
and `cancel` properties each are or are not functions. -/
inductive JSVal where
  | jsNull
  | jsUndefined
  | jsBool (b : Bool)
  | jsNumber (n : Int)
  | jsString (s : String)
  | jsFunction
  | jsObject (thenIsFn : Bool) (cancelIsFn : Bool)
deriving DecidableEq

/-- The JavaScript test `value != null` (loose inequality excludes both
`null` and `undefined`). -/
def notNullish : JSVal → Bool
  | .jsNull => false
  | .jsUndefined => false
  | _ => true

/-- The JavaScript test `typeof value === 'object'` (true for `null` and
for objects; false for `undefined`, primitives, and functions). -/
def typeofIsObject : JSVal → Bool
  | .jsNull => true
  | .jsObject _ _ => true
  | _ => false

/-- The JavaScript test `typeof value.then === 'function'`. -/
def thenIsFunction : JSVal → Bool
  | .jsObject t _ => t
  | _ => false

/-- The JavaScript test `typeof value.cancel === 'function'`. -/
def cancelIsFunction : JSVal → Bool
  | .jsObject _ c => c
  | _ => false

/-- Embeds `isPromiseWithCancel` (src/src/CancellablePromise.ts lines
12-22): `value != null && typeof value === 'object' && typeof value.then
=== 'function' && typeof value.cancel === 'function'`. -/
def isPromiseWithCancel (v : JSVal) : Bool :=
  notNullish v && typeofIsObject v && thenIsFunction v && cancelIsFunction v

/-! ## Aggregate combinators: `all`, `race`, `allSettled` -/

/-- An element of the array passed to `all` / `race` / `allSettled`:
either a cancellable promise (a thenable exposing `cancel`) or a
non-cancellable input (a plain value, or a thenable lacking `cancel`;
`isPromiseWithCancel` returns false for it). -/
inductive AggInput where
  | cancellable (l : Leaf)
  | plain (v : Nat)
deriving DecidableEq

/-- The loop body shared verbatim by the cancel functions of `all`,
`allSettled` and `race`: `if (isPromiseWithCancel(value)) value.cancel()`.
Non-cancellable inputs are left untouched. -/
def cancelInputValue : AggInput → AggInput
  | .cancellable l => .cancellable (leafCancel l)
  | .plain v => .plain v

/-- The cancel function built by `CancellablePromise.all`
(src/src/CancellablePromise.ts lines 388-394): iterate the input values
and cancel each one that is a promise with cancel.  It takes no reason of
its own; the optional reason a caller passes is ignored. -/
def allCancelFn (_reason : Option String) (values : List AggInput) : List AggInput :=
  values.map cancelInputValue

/-- The cancel function built by `CancellablePromise.race`
(src/src/CancellablePromise.ts lines 443-455): same loop as `all`. -/
def raceCancelFn (_reason : Option String) (values : List AggInput) : List AggInput :=
  values.map cancelInputValue

/-- The cancel function built by `CancellablePromise.allSettled`
(src/src/CancellablePromise.ts lines 424-434): same loop as `all`. -/
def allSettledCancelFn (_reason : Option String) (values : List AggInput) : List AggInput :=
  values.map cancelInputValue

/-- Checks that every cancellable element of the list has had its cancel
operation invoked. -/
def allInvoked (values : List AggInput) : Bool :=
  values.all fun v =>
    match v with
    | .cancellable l => l.cancelInvoked
    | .plain _ => true

/-- The eventual outcome an aggregate observes for one input: a
cancellable input contributes its own settlement, a plain value counts as
fulfilled with that value (standard promise coercion). -/
def inputOutcome : AggInput → Option PromiseResult
  | .cancellable l => l.settled
  | .plain v => some (.fulfilled v)

/-- One element of the array `Promise.allSettled` resolves to:
`{status: 'fulfilled', value}` or `{status: 'rejected', reason}`. -/
inductive SettledRecord where
  | fulfilledRec (v : Nat)
  | rejectedRec (r : Reason)
deriving DecidableEq

/-- The per-input record `Promise.allSettled` produces from that input's
settlement (ECMAScript semantics of the host primitive invoked at
src/src/CancellablePromise.ts line 433). -/
def settledRecordOf : PromiseResult → SettledRecord
  | .fulfilled v => .fulfilledRec v
  | .rejected r => .rejectedRec r

/-- The settlement of the aggregate promise returned by
`Promise.allSettled`. -/
inductive AllSettledOutcome where
  | fulfilledWith (recs : List SettledRecord)
  | rejectedWith (r : Reason)
deriving DecidableEq

/-- Modelled from the ECMAScript semantics of the host primitive
`Promise.allSettled` (invoked by the source at
src/src/CancellablePromise.ts line 433): once every input has settled
with the given outcomes, the aggregate fulfills with the positional list
of per-input records; it never rejects. -/
def promiseAllSettled (outcomes : List PromiseResult) : AllSettledOutcome :=
  .fulfilledWith (outcomes.map settledRecordOf)

/-! ## `CancellablePromise.resolve` / `reject` -/

/-- The promise underlying `CancellablePromise.resolve(value)`
(src/src/CancellablePromise.ts lines 184-186): already fulfilled with the
value at construction time. -/
def resolveLeaf (v : Nat) : Leaf := ⟨some (.fulfilled v), false⟩

/-- The promise underlying `CancellablePromise.reject(reason)`
(src/src/CancellablePromise.ts lines 196-198): already rejected with the
reason at construction time. -/
def rejectLeaf (e : Reason) : Leaf := ⟨some (.rejected e), false⟩

/-- The `noop` cancel function attached by `resolve` and `reject`
(src/src/CancellablePromise.ts lines 185 and 197): it does nothing, for
any reason argument. -/
def noopCancel (_reason : Option String) (l : Leaf) : Leaf := l

/-! ## `CancellablePromise.delay` -/

/-- The mutable state of `CancellablePromise.delay` (lines 474-490):
whether the timer is still armed, whether `rejectFn` still points at the
promise's `reject` (it is reset to `noop` once the timer fires), and the
settlement of the returned promise. -/
structure DelayState where
  timerActive : Bool
  rejectActive : Bool
  outcome : Option PromiseResult
deriving DecidableEq

/-- State right after `delay` returns: timer armed, `rejectFn = reject`,
promise pending (lines 478-484). -/
def delayInit : DelayState := ⟨true, true, none⟩

/-- The `setTimeout` callback of `delay` (lines 479-482): if the timer is
still armed it resolves the promise and resets `rejectFn` to `noop`. -/
def delayTimerFires (s : DelayState) : DelayState :=
  if s.timerActive then
    ⟨false, false, some (s.outcome.getD (.fulfilled 0))⟩
  else s

/-- The cancel function of `delay` (lines 486-489):
`if (timer) clearTimeout(timer); rejectFn(new Cancellation())`.  The
reason argument is not used; the `Cancellation` is constructed with no
argument.  If `rejectFn` was reset to `noop` (timer already fired) the
rejection attempt does nothing. -/
def delayCancel (_reason : Option String) (s : DelayState) : DelayState :=
  ⟨false, s.rejectActive,
   if s.rejectActive then
     some (s.outcome.getD (.rejected (.cancellation (mkCancellation none))))
   else s.outcome⟩

/-! ## `pseudoCancellable` -/

/-- The mutable state of `pseudoCancellable` (src/unnamed/part_007 lines
13-44): the `canceled` flag, whether `rejectFn` still points at the outer
promise's `reject` (it is reset to `noop` after a fulfillment is
forwarded), the outer promise's settlement, the wrapped inner promise's
settlement, and whether the inner promise's settlement was consumed by
the adapter's handlers (the adapter attaches both an `onFulfilled` and an
`onRejected` handler to the inner promise, so an inner rejection is
always handled and can never surface as an unhandled rejection). -/
structure PseudoState where
  canceled : Bool
  rejectActive : Bool
  outer : Option PromiseResult
  innerSettled : Option PromiseResult
  innerHandled : Bool
deriving DecidableEq

/-- State right after `pseudoCancellable` returns: not canceled,
`rejectFn = reject` (assigned synchronously inside the executor), outer
pending, inner pending. -/
def pseudoInit : PseudoState := ⟨false, true, none, none, false⟩

/-- The cancel function of `pseudoCancellable` (lines 38-41):
`canceled = true; rejectFn(new Cancellation())`.  The reason argument is
not used; the `Cancellation` carries no custom message.  Rejecting an
already settled outer promise is a no-op (first settlement wins). -/
def pseudoCancel (_reason : Option String) (s : PseudoState) : PseudoState :=
  { s with
    canceled := true,
    outer :=
      if s.rejectActive then
        some (s.outer.getD (.rejected (.cancellation (mkCancellation none))))
      else s.outer }

/-- The inner promise fulfills and the adapter's `onFulfilled` handler
(lines 24-30) runs: if not canceled, forward the result to the outer
promise and reset `rejectFn` to `noop`; otherwise discard it.  Guarded so
the handler runs only on the inner promise's first settlement. -/
def pseudoInnerFulfills (v : Nat) (s : PseudoState) : PseudoState :=
  if s.innerSettled.isSome then s
  else
    { s with
      innerSettled := some (.fulfilled v),
      innerHandled := true,
      outer := if s.canceled then s.outer else some (s.outer.getD (.fulfilled v)),
      rejectActive := if s.canceled then s.rejectActive else false }

/-- The inner promise rejects and the adapter's `onRejected` handler
(lines 32-34) runs: if not canceled, forward the rejection to the outer
promise; otherwise discard it.  Either way the rejection is handled. -/
def pseudoInnerRejects (e : Reason) (s : PseudoState) : PseudoState :=
  if s.innerSettled.isSome then s
  else
    { s with
      innerSettled := some (.rejected e),
      innerHandled := true,
      outer := if s.canceled then s.outer else some (s.outer.getD (.rejected e)) }

/-- Events that can happen to a `pseudoCancellable` adapter. -/
inductive PseudoEvent where
  | cancel
  | innerFulfills (v : Nat)
  | innerRejects (e : Reason)

/-- One step of the `pseudoCancellable` adapter (the user's `cancel()`
call passes no reason). -/
def pseudoStep (s : PseudoState) : PseudoEvent → PseudoState
  | .cancel => pseudoCancel none s
  | .innerFulfills v => pseudoInnerFulfills v s
  | .innerRejects e => pseudoInnerRejects e s

/-- Run a trace of events against a freshly constructed adapter. -/
def runPseudo (t : List PseudoEvent) : PseudoState := t.foldl pseudoStep pseudoInit

/-! ## The `then` chain `f1.then(cb2).then(cb3)`

Each call to `then` (src/src/CancellablePromise.ts lines 81-137) closes
over two mutable variables: `canceled` (line 94) and
`callbackPromiseWithCancel` (line 93).  In the chain below, link 1 is
`f1.then(cb2)` and link 2 is `(f1.then(cb2)).then(cb3)`; `cb2` produces
the cancellable promise `p2` and `cb3` produces `p3`, so link i's
`callbackPromiseWithCancel` is exactly `p2` (resp. `p3`) once the
callback has run — represented here by `p2`/`p3` being `some`. -/

structure ChainState where
  f1 : Leaf
  link1canceled : Bool
  p2 : Option Leaf
  link2canceled : Bool
  p3 : Option Leaf
deriving DecidableEq

/-- The chain right after construction: `f1` pending, neither callback
has run, neither link is canceled. -/
def chainInit : ChainState := ⟨pendingLeaf, false, none, false, none⟩

/-- The callback wrapper of `then` (lines 97-109): when the callback's
result is a promise with cancel it is remembered as
`callbackPromiseWithCancel`, and if `canceled` is already set it is
cancelled immediately upon creation. -/
def thenCallbackWrapper (canceled : Bool) (produced : Leaf) : Leaf :=
  if canceled then leafCancel produced else produced

/-- The composed cancel of the tail of the chain, i.e. link 2's
`newCancel` (lines 130-134): it calls the receiver's cancel — which is
link 1's `newCancel`, which in turn calls `f1.cancel()`, sets link 1's
`canceled` flag and cancels link 1's remembered callback promise — then
sets link 2's `canceled` flag and cancels link 2's remembered callback
promise.  `newCancel` is a zero-argument arrow function: any reason the
caller passes is discarded and none is forwarded. -/
def chainCancel (_reason : Option String) (s : ChainState) : ChainState :=
  { f1 := leafCancel s.f1,
    link1canceled := true,
    p2 := s.p2.map leafCancel,
    link2canceled := true,
    p3 := s.p3.map leafCancel }

/-- Scheduling events for the chain: the three underlying operations
settling (fulfilling), the two callback wrappers running (each runs only
after its receiver fulfilled), and the user cancelling the tail. -/
inductive ChainEvent where
  | f1Settles
  | wrapper1Runs
  | p2Settles
  | wrapper2Runs
  | p3Settles
  | cancelTail

/-- One scheduling step of the chain.  `wrapper1Runs` has an effect only
if `f1` fulfilled and `cb2` has not run yet (a fulfillment handler runs
exactly once, and not at all if the receiver rejected); it creates `p2`
through the callback wrapper, which consults link 1's `canceled` flag.
Similarly for `wrapper2Runs`.  A settle event on an already settled or
cancelled leaf is a no-op (first settlement wins). -/
def chainStep (s : ChainState) : ChainEvent → ChainState
  | .f1Settles => { s with f1 := leafSettle (.fulfilled 1) s.f1 }
  | .wrapper1Runs =>
      match s.f1.settled, s.p2 with
      | some (.fulfilled _), none =>
          { s with p2 := some (thenCallbackWrapper s.link1canceled pendingLeaf) }
      | _, _ => s
  | .p2Settles => { s with p2 := s.p2.map (leafSettle (.fulfilled 2)) }
  | .wrapper2Runs =>
      match s.p2, s.p3 with
      | some l2, none =>
          match l2.settled with
          | some (.fulfilled _) =>
              { s with p3 := some (thenCallbackWrapper s.link2canceled pendingLeaf) }
          | _ => s
      | _, _ => s
  | .p3Settles => { s with p3 := s.p3.map (leafSettle (.fulfilled 3)) }
  | .cancelTail => chainCancel none s

/-- The happy-path schedule with no cancellation. -/
def happyChain : List ChainEvent :=
  [.f1Settles, .wrapper1Runs, .p2Settles, .wrapper2Runs, .p3Settles]

/-- Run the chain with `cancel()` on the tail inserted after the first
`k` happy-path events (`k = 0`: cancel before `f1` settles; `k = 1`:
cancel after `f1` settles but before `cb2` runs; `k = 2`: cancel while
`p2` is pending; `k = 3`: cancel after `p2` settles but before `cb3`
runs; `k = 4`: cancel while `p3` is pending; `k = 5`: cancel after
everything settled). -/
def runChainAt (k : Nat) : ChainState :=
  (happyChain.take k ++ ChainEvent.cancelTail :: happyChain.drop k).foldl chainStep chainInit

/-- Run the chain with no cancellation at all. -/
def chainHappyRun : ChainState := happyChain.foldl chainStep chainInit

/-- The settlement of the tail promise of the chain, per standard promise
propagation for `f1.then(cb2).then(cb3)` with no rejection handlers: a
rejection of `f1` propagates to the tail; if `f1` fulfilled, the tail
follows `cb2`'s produced promise `p2`; a rejection of `p2` propagates; if
`p2` fulfilled, the tail follows `cb3`'s produced promise `p3`. -/
def tailOutcome (s : ChainState) : Option PromiseResult :=
  match s.f1.settled with
  | some (.rejected r) => some (.rejected r)
  | some (.fulfilled _) =>
      match s.p2 with
      | none => none
      | some l2 =>
          match l2.settled with
          | some (.rejected r) => some (.rejected r)
          | some (.fulfilled _) =>
              match s.p3 with
              | none => none
              | some l3 => l3.settled
          | none => none
  | none => none

/-- True when the leaf, if it exists, has had its cancel invoked. -/
def existingCancelled : Option Leaf → Bool
  | none => true
  | some l => l.cancelInvoked

/-- The chain state in which `f1` fulfilled, the tail was cancelled, and
only then did `cb2` run: the state in which the callback wrapper itself
must consult the already-set `canceled` flag. -/
def midConsultState : ChainState :=
  [ChainEvent.f1Settles, ChainEvent.cancelTail, ChainEvent.wrapper1Runs].foldl chainStep chainInit

/-! ## `buildCancellablePromise`

`buildCancellablePromise` (src/unnamed/part_007 lines 77-93) owns a
`Set` of captured promises, a `capture` function that adds to the set and
schedules removal via `promise.finally(() => capturedPromises.delete(promise))`,
a `cancel` function that iterates the current set, and an overall promise
that is exactly `innerFunc`'s returned promise.  The state tracks the
leaf promises by numeric id, the registry of captured ids, and the
overall settlement. -/

structure BuildState where
  leaves : Nat → Option Leaf
  registry : Finset Nat
  overall : Option PromiseResult

/-- State right after `buildCancellablePromise` is entered: no leaves, an
empty registry, overall pending. -/
def buildInit : BuildState := ⟨fun _ => none, ∅, none⟩

/-- The `capture` function (lines 82-86): add the promise to the registry
(a `Set`, so re-adding is a no-op) and return it unchanged.  The leaf is
created pending if it did not exist yet. -/
def captureStep (id : Nat) (s : BuildState) : BuildState :=
  ⟨fun k => if k = id then some ((s.leaves id).getD pendingLeaf) else s.leaves k,
   insert id s.registry,
   s.overall⟩

/-- The settlement notification of a captured promise: the leaf settles
(first settlement wins — if it was already rejected by a cancel, the
late settlement is discarded) and the `finally` callback registered by
`capture` (line 84) deletes it from the registry, regardless of whether
the settlement was a fulfillment or a rejection. -/
def settleStep (id : Nat) (r : PromiseResult) (s : BuildState) : BuildState :=
  ⟨fun k => if k = id then (s.leaves id).map (leafSettle r) else s.leaves k,
   s.registry.erase id,
   s.overall⟩

/-- The cancel function of `buildCancellablePromise` (lines 88-90):
`capturedPromises.forEach((p) => p.cancel())`.  It cancels exactly the
promises currently in the registry, forwards no reason to them, records
no flag of its own, and never touches the overall promise. -/
def buildCancel (_reason : Option String) (s : BuildState) : BuildState :=
  ⟨fun k => if k ∈ s.registry then (s.leaves k).map leafCancel else s.leaves k,
   s.registry,
   s.overall⟩

/-- The promise returned by `innerFunc` settles: the overall promise —
which is that promise wrapped unchanged (line 92) — adopts it, first
settlement winning. -/
def finishStep (r : PromiseResult) (s : BuildState) : BuildState :=
  ⟨s.leaves, s.registry, some (s.overall.getD r)⟩

/-- Events that can happen during a `buildCancellablePromise` run. -/
inductive BuildEvent where
  | capture (id : Nat)
  | settleLeaf (id : Nat) (r : PromiseResult)
  | cancelOverall
  | finish (r : PromiseResult)
deriving DecidableEq

/-- One step of the build model (the user's `cancel()` call passes no
reason). -/
def stepBuild (s : BuildState) : BuildEvent → BuildState
  | .capture id => captureStep id s
  | .settleLeaf id r => settleStep id r s
  | .cancelOverall => buildCancel none s
  | .finish r => finishStep r s

/-- Run a trace of build events from a given state. -/
def runBuild (s : BuildState) (t : List BuildEvent) : BuildState :=
  t.foldl stepBuild s

/-- Whether the trace contains a capture of the given id. -/
def capturedB (id : Nat) (t : List BuildEvent) : Bool :=
  t.any fun e =>
    match e with
    | .capture j => j == id
    | _ => false

/-- Whether the trace contains a settlement notification for the given
id. -/
def settledInB (id : Nat) (t : List BuildEvent) : Bool :=
  t.any fun e =>
    match e with
    | .settleLeaf j _ => j == id
    | _ => false

/-- Whether the trace contains no settlement of the overall promise. -/
def noFinishB (t : List BuildEvent) : Bool :=
  t.all fun e =>
    match e with
    | .finish _ => false
    | _ => true

/-- Whether the trace contains no `cancel()` call on the overall
promise. -/
def noCancelB (t : List BuildEvent) : Bool :=
  t.all fun e =>
    match e with
    | .cancelOverall => false
    | _ => true

/-- Whether the trace never captures or settles the given id. -/
def idFreeB (id : Nat) (t : List BuildEvent) : Bool :=
  t.all fun e =>
    match e with
    | .capture j => !(j == id)
    | .settleLeaf j _ => !(j == id)
    | _ => true

/-- Well-formed traces, given the ids already captured before the trace
starts: a promise instance is captured at most once, and a settlement
notification only concerns a previously captured promise. -/
def wfCapture (seen : List Nat) : List BuildEvent → Bool
  | [] => true
  | .capture id :: t => !(decide (id ∈ seen)) && wfCapture (id :: seen) t
  | .settleLeaf id _ :: t => decide (id ∈ seen) && wfCapture seen t
  | .cancelOverall :: t => wfCapture seen t
  | .finish _ :: t => wfCapture seen t

/-- True when the leaf, if it exists, has never had its cancel
invoked. -/
def neverCancelled : Option Leaf → Bool
  | none => true
  | some l => !l.cancelInvoked

/-- The scenario of the test `buildCancellablePromise cancels multiple
promises` (src/unnamed/part_005): the procedure captures two promises,
the overall promise is cancelled, both captured promises reject with a
`Cancellation` the procedure swallows with try/catch, their `finally`
callbacks remove them from the registry, and the procedure completes
normally with a value. -/
def swallowScenario : List BuildEvent :=
  [.capture 1, .capture 2, .cancelOverall,
   .settleLeaf 1 (.fulfilled 0), .settleLeaf 2 (.fulfilled 0),
   .finish (.fulfilled 42)]

end RCP

namespace RCP

/-! ## Helper lemmas -/

theorem allInvoked_map_cancel (values : List AggInput) :
    allInvoked (values.map cancelInputValue) = true := by
  induction values with
  | nil => rfl
  | cons hd tl ih =>
    cases hd <;> simp [allInvoked, cancelInputValue, leafCancel, List.all] at ih ⊢ <;>
      simpa [allInvoked] using ih

/-! ## Claim theorems -/

/-- C8: the duck-typed cancellability check `isPromiseWithCancel` used by
`all`, `allSettled`, `race` and `then` is a total boolean function (it
cannot throw): it returns `false` for `null`, `undefined`, booleans,
numbers, strings, functions, and objects lacking a `then` function or a
`cancel` function, and returns `true` exactly for a non-null object whose
`then` and `cancel` properties are both functions. -/
theorem c8_isPromiseWithCancel_total :
    ∀ (b : Bool) (n : Int) (s : String) (t c : Bool),
      isPromiseWithCancel .jsNull = false ∧
      isPromiseWithCancel .jsUndefined = false ∧
      isPromiseWithCancel (.jsBool b) = false ∧
      isPromiseWithCancel (.jsNumber n) = false ∧
      isPromiseWithCancel (.jsString s) = false ∧
      isPromiseWithCancel .jsFunction = false ∧
      isPromiseWithCancel (.jsObject t false) = false ∧
      isPromiseWithCancel (.jsObject t c) = (t && c) ∧
      (∀ v : JSVal, isPromiseWithCancel v = true ↔
        ∃ t' c', v = .jsObject t' c' ∧ t' = true ∧ c' = true) := by
  intro b n s t c
  refine ⟨rfl, rfl, rfl, rfl, rfl, rfl,
    by simp [isPromiseWithCancel, notNullish, typeofIsObject, thenIsFunction, cancelIsFunction],
    by simp [isPromiseWithCancel, notNullish, typeofIsObject, thenIsFunction, cancelIsFunction],
    ?_⟩
  intro v
  cases v <;>
    simp [isPromiseWithCancel, notNullish, typeofIsObject, thenIsFunction, cancelIsFunction]

/-- C5: for every array of inputs and any (discarded) reason argument,
the cancel operation built by `all` and the one built by `race` invoke
the cancel operation of every input that exposes one; since these cancel
functions do not consult any settlement state, this holds regardless of
which input settled first, how the aggregate settled, or whether it
settled at all (the input leaves' states are universally quantified). -/
theorem c5_all_race_cancel_fanout :
    ∀ (values : List AggInput) (r₁ r₂ : Option String),
      allInvoked (allCancelFn r₁ values) = true ∧
      allInvoked (raceCancelFn r₂ values) = true := by
  intro values r₁ r₂
  exact ⟨allInvoked_map_cancel values, allInvoked_map_cancel values⟩

/-- C6: `allSettled` resolves (never rejects) to a list of per-input
outcome records of the same length as the input, whose i-th element
positionally describes the i-th input's outcome as a fulfilled record or
a rejected record; and its cancel operation invokes cancel on every input
exposing a cancel capability. -/
theorem c6_allSettled_total_coverage :
    ∀ (outcomes : List PromiseResult) (i : Nat) (r : Option String)
      (values : List AggInput) (v : Nat) (e : Reason),
      promiseAllSettled outcomes = .fulfilledWith (outcomes.map settledRecordOf) ∧
      (outcomes.map settledRecordOf).length = outcomes.length ∧
      (outcomes.map settledRecordOf)[i]? = (outcomes[i]?).map settledRecordOf ∧
      settledRecordOf (.fulfilled v) = .fulfilledRec v ∧
      settledRecordOf (.rejected e) = .rejectedRec e ∧
      allInvoked (allSettledCancelFn r values) = true := by
  intro outcomes i r values v e
  refine ⟨rfl, List.length_map _ _, ?_, rfl, rfl, allInvoked_map_cancel values⟩
  simp [List.getElem?_map]

/-- C1: for the chain `f1.then(cb2).then(cb3)`, cancelling the tail at
any point before the last produced promise settles (`k = 0`: before `f1`
settles; `k = 1, 2`: between `f1` settling and `cb2`'s result settling —
including the window before `cb2` has even run; `k = 3, 4`: after `cb2`'s
result settles but before `cb3`'s result settles) rejects the tail with a
`Cancellation`, and every one of `f1`, `cb2`'s produced cancellable and
`cb3`'s produced cancellable that exists receives a cancel invocation; in
particular, when cancel was requested before `cb2` ran, the promise `cb2`
produces is rejected with a `Cancellation` immediately upon creation
because the callback wrapper consults the already-set `canceled` flag. -/
theorem c1_chain_cancel_propagation :
    ∀ k : Fin 5,
      tailOutcome (runChainAt k) =
        some (.rejected (.cancellation (mkCancellation none))) ∧
      (runChainAt k).f1.cancelInvoked = true ∧
      existingCancelled (runChainAt k).p2 = true ∧
      existingCancelled (runChainAt k).p3 = true ∧
      midConsultState.p2 =
        some ⟨some (.rejected (.cancellation (mkCancellation none))), true⟩ := by
  decide

/-- C4: for the `pseudoCancellable` adapter: cancelling while the inner
promise is pending immediately rejects the outer promise with a
`Cancellation`; the inner promise's later settlement — fulfillment or
rejection — is silently discarded (the outer outcome is unchanged) and
the inner rejection is still consumed by the adapter's always-attached
rejection handler, so it cannot surface as an unhandled rejection; and if
the inner promise settles first, the outer promise mirrors that
settlement exactly, with a later cancel not changing it. -/
theorem c4_pseudoCancellable :
    ∀ (v : Nat) (e : Reason),
      (runPseudo [.cancel]).outer =
        some (.rejected (.cancellation (mkCancellation none))) ∧
      (runPseudo [.cancel, .innerFulfills v]).outer =
        some (.rejected (.cancellation (mkCancellation none))) ∧
      (runPseudo [.cancel, .innerRejects e]).outer =
        some (.rejected (.cancellation (mkCancellation none))) ∧
      (runPseudo [.cancel, .innerRejects e]).innerHandled = true ∧
      (runPseudo [.cancel, .innerFulfills v]).innerHandled = true ∧
      (runPseudo [.innerFulfills v]).outer = some (.fulfilled v) ∧
      (runPseudo [.innerRejects e]).outer = some (.rejected e) ∧
      (runPseudo [.innerFulfills v, .cancel]).outer = some (.fulfilled v) ∧
      (runPseudo [.innerRejects e, .cancel]).outer = some (.rejected e) := by
  intro v e
  refine ⟨rfl, ?_, ?_, ?_, ?_, ?_, ?_, ?_, ?_⟩ <;>
    simp [runPseudo, pseudoStep, pseudoInit, pseudoCancel, pseudoInnerFulfills,
      pseudoInnerRejects]

/-- C7: cancelling a library-constructed promise after it has settled
never changes the settled outcome and never re-settles it: `resolve(v)`'s
and `reject(r)`'s `noop` cancel leaves their state untouched (so
`resolve(v)` still fulfills with `v` and `reject(r)` still rejects with
`r` even when cancelled immediately); `delay`'s cancel after the timer
fired finds `rejectFn` reset to `noop` and leaves the fulfilled state
untouched; a leaf obeying the constructor contract keeps its settlement
when cancelled; cancelling a fully settled `then` chain leaves its tail
outcome identical to the never-cancelled run; a `pseudoCancellable`
cancelled after the inner promise settled keeps the mirrored settlement;
and the aggregate cancel on a settled cancellable input preserves that
input's outcome.  All cancel operations are total functions: none
throws. -/
theorem c7_cancel_after_settle_noop :
    ∀ (v : Nat) (re : Reason) (res : PromiseResult) (b : Bool) (r : Option String),
      noopCancel r (resolveLeaf v) = resolveLeaf v ∧
      (resolveLeaf v).settled = some (.fulfilled v) ∧
      noopCancel r (rejectLeaf re) = rejectLeaf re ∧
      (rejectLeaf re).settled = some (.rejected re) ∧
      delayCancel r (delayTimerFires delayInit) = delayTimerFires delayInit ∧
      (delayTimerFires delayInit).outcome = some (.fulfilled 0) ∧
      (leafCancel ⟨some res, b⟩).settled = some res ∧
      tailOutcome (runChainAt 5) = tailOutcome chainHappyRun ∧
      tailOutcome (runChainAt 5) = some (.fulfilled 3) ∧
      (runPseudo [.innerFulfills v, .cancel]).outer = some (.fulfilled v) ∧
      (runPseudo [.innerRejects re, .cancel]).outer = some (.rejected re) ∧
      inputOutcome (cancelInputValue (.cancellable ⟨some res, b⟩)) = some res := by
  intro v re res b r
  refine ⟨rfl, rfl, rfl, rfl, rfl, rfl, by simp [leafCancel], by decide, by decide,
    ?_, ?_, by simp [inputOutcome, cancelInputValue, leafCancel]⟩ <;>
    simp [runPseudo, pseudoStep, pseudoInit, pseudoCancel, pseudoInnerFulfills,
      pseudoInnerRejects]

/-- C10: the optional reason argument of `cancel(reason?)` is discarded
by every cancel operation the library constructs: the composed cancel of
`then`, the cancels of `delay`, `pseudoCancellable` and
`buildCancellablePromise` all behave identically whatever reason is
passed; the `Cancellation` objects they produce are constructed with no
argument and therefore carry the default message `Promise canceled.` —
even when the caller passed a custom reason string. -/
theorem c10_cancel_reason_discarded :
    ∀ (r : Option String) (cs : ChainState) (ds : DelayState) (ps : PseudoState)
      (bs : BuildState),
      chainCancel r cs = chainCancel none cs ∧
      delayCancel r ds = delayCancel none ds ∧
      pseudoCancel r ps = pseudoCancel none ps ∧
      buildCancel r bs = buildCancel none bs ∧
      (mkCancellation none).message = "Promise canceled." ∧
      (delayCancel (some "custom reason") delayInit).outcome =
        some (.rejected (.cancellation (mkCancellation none))) ∧
      (pseudoCancel (some "custom reason") pseudoInit).outer =
        some (.rejected (.cancellation (mkCancellation none))) ∧
      (buildCancel (some "custom reason") (runBuild buildInit [.capture 1])).leaves 1 =
        some ⟨some (.rejected (.cancellation (mkCancellation none))), true⟩ := by
  intro r cs ds ps bs
  refine ⟨rfl, rfl, rfl, rfl, rfl, rfl, rfl, ?_⟩
  simp [runBuild, stepBuild, captureStep, buildCancel, buildInit, pendingLeaf, leafCancel]

/-! ## Build-model lemmas for C2, C3, C9 -/

theorem runBuild_cons (s : BuildState) (e : BuildEvent) (t : List BuildEvent) :
    runBuild s (e :: t) = runBuild (stepBuild s e) t := rfl

theorem runBuild_append (s : BuildState) (t₁ t₂ : List BuildEvent) :
    runBuild s (t₁ ++ t₂) = runBuild (runBuild s t₁) t₂ :=
  List.foldl_append _ _ _ _

theorem runBuild_singleton (s : BuildState) (e : BuildEvent) :
    runBuild s [e] = stepBuild s e := rfl

theorem wfCapture_not_captured (t : List BuildEvent) :
    ∀ (seen : List Nat) (j : Nat), wfCapture seen t = true → j ∈ seen →
      capturedB j t = false := by
  induction t with
  | nil => intro seen j _ _; rfl
  | cons e t ih =>
    intro seen j hwf hj
    cases e with
    | capture k =>
      simp only [wfCapture, Bool.and_eq_true, Bool.not_eq_true', decide_eq_false_iff_not] at hwf
      have hkj : (k == j) = false := by
        simp only [beq_eq_false_iff_ne]
        intro hk; exact hwf.1 (hk ▸ hj)
      have := ih (k :: seen) j hwf.2 (List.mem_cons_of_mem _ hj)
      simp [capturedB, List.any_cons] at this ⊢
      exact ⟨by simpa [beq_eq_false_iff_ne] using hkj, this⟩
    | settleLeaf k r =>
      simp only [wfCapture, Bool.and_eq_true] at hwf
      have := ih seen j hwf.2 hj
      simpa [capturedB, List.any_cons] using this
    | cancelOverall =>
      have := ih seen j (by simpa [wfCapture] using hwf) hj
      simpa [capturedB, List.any_cons] using this
    | finish r =>
      have := ih seen j (by simpa [wfCapture] using hwf) hj
      simpa [capturedB, List.any_cons] using this

theorem overall_of_noFinish (t : List BuildEvent) :
    ∀ s : BuildState, noFinishB t = true → (runBuild s t).overall = s.overall := by
  induction t with
  | nil => intro s _; rfl
  | cons e t ih =>
    intro s hnf
    cases e with
    | capture id =>
      rw [runBuild_cons]
      exact ih _ (by simpa [noFinishB] using hnf)
    | settleLeaf id r =>
      rw [runBuild_cons]
      exact ih _ (by simpa [noFinishB] using hnf)
    | cancelOverall =>
      rw [runBuild_cons]
      exact ih _ (by simpa [noFinishB] using hnf)
    | finish r => simp [noFinishB] at hnf

theorem leaves_none_of_idFree (t : List BuildEvent) :
    ∀ (s : BuildState) (id : Nat), idFreeB id t = true → s.leaves id = none →
      (runBuild s t).leaves id = none := by
  induction t with
  | nil => intro s id _ h; exact h
  | cons e t ih =>
    intro s id hfree hnone
    cases e with
    | capture j =>
      simp only [idFreeB, List.all_cons, Bool.and_eq_true, Bool.not_eq_true',
        beq_eq_false_iff_ne] at hfree
      rw [runBuild_cons]
      refine ih _ id hfree.2 ?_
      have hij : ¬(id = j) := fun h => hfree.1 h.symm
      simp [stepBuild, captureStep, hij, hnone]
    | settleLeaf j r =>
      simp only [idFreeB, List.all_cons, Bool.and_eq_true, Bool.not_eq_true',
        beq_eq_false_iff_ne] at hfree
      rw [runBuild_cons]
      refine ih _ id hfree.2 ?_
      have hij : ¬(id = j) := fun h => hfree.1 h.symm
      simp [stepBuild, settleStep, hij, hnone]
    | cancelOverall =>
      rw [runBuild_cons]
      refine ih _ id (by simpa [idFreeB] using hfree) ?_
      simp [stepBuild, buildCancel, hnone]
    | finish r =>
      rw [runBuild_cons]
      exact ih _ id (by simpa [idFreeB] using hfree) hnone

theorem neverCancelled_of_noCancel (t : List BuildEvent) :
    ∀ (s : BuildState) (id : Nat), noCancelB t = true →
      neverCancelled (s.leaves id) = true →
      neverCancelled ((runBuild s t).leaves id) = true := by
  induction t with
  | nil => intro s id _ h; exact h
  | cons e t ih =>
    intro s id hnc h
    cases e with
    | capture j =>
      rw [runBuild_cons]
      refine ih _ id (by simpa [noCancelB] using hnc) ?_
      by_cases hij : id = j
      · subst hij
        simp only [stepBuild, captureStep, if_pos rfl]
        cases hl : s.leaves id with
        | none => simp [neverCancelled, pendingLeaf]
        | some l => simp [hl, neverCancelled] at h ⊢; exact h
      · simpa [stepBuild, captureStep, hij] using h
    | settleLeaf j r =>
      rw [runBuild_cons]
      refine ih _ id (by simpa [noCancelB] using hnc) ?_
      by_cases hij : id = j
      · subst hij
        simp only [stepBuild, settleStep, if_pos rfl]
        cases hl : s.leaves id with
        | none => simp [neverCancelled]
        | some l => simp [hl, neverCancelled, leafSettle] at h ⊢; exact h
      · simpa [stepBuild, settleStep, hij] using h
    | cancelOverall => simp [noCancelB] at hnc
    | finish r =>
      rw [runBuild_cons]
      exact ih _ id (by simpa [noCancelB] using hnc) h

/-- C2: registry membership characterization for `buildCancellablePromise`:
for every well-formed trace of events, a promise id is in the capture
registry afterwards exactly when it was in the registry at the start or
was captured during the trace, and its settlement notification (the
`finally` callback that fires when the captured promise settles,
fulfilled or rejected) has not occurred.  Consequently, after any number
of captured promises have settled, the registry holds exactly the
still-pending captured promises — it never retains a settled promise past
its settlement notification and never grows to the total number of
promises ever captured. -/
theorem c2_capture_registry_shrinks (trace : List BuildEvent) :
    ∀ (seen : List Nat) (s : BuildState),
      wfCapture seen trace = true → (∀ x ∈ s.registry, x ∈ seen) →
      ∀ id : Nat,
        (id ∈ (runBuild s trace).registry ↔
          ((id ∈ s.registry ∨ capturedB id trace = true) ∧
            settledInB id trace = false)) := by
  induction trace with
  | nil =>
    intro seen s _ _ id
    simp [runBuild, capturedB, settledInB]
  | cons e t ih =>
    intro seen s hwf hsub id
    cases e with
    | capture j =>
      simp only [wfCapture, Bool.and_eq_true, Bool.not_eq_true',
        decide_eq_false_iff_not] at hwf
      rw [runBuild_cons]
      have hsub' : ∀ x ∈ (stepBuild s (.capture j)).registry, x ∈ j :: seen := by
        intro x hx
        simp only [stepBuild, captureStep, Finset.mem_insert] at hx
        rcases hx with h | h
        · exact h ▸ List.mem_cons_self _ _
        · exact List.mem_cons_of_mem _ (hsub x h)
      rw [ih (j :: seen) (stepBuild s (.capture j)) hwf.2 hsub' id]
      simp only [stepBuild, captureStep, Finset.mem_insert, capturedB, settledInB,
        List.any_cons]
      by_cases hij : id = j
      · simp [hij]
      · simp [hij]
        tauto
    | settleLeaf j r =>
      simp only [wfCapture, Bool.and_eq_true, decide_eq_true_eq] at hwf
      rw [runBuild_cons]
      have hsub' : ∀ x ∈ (stepBuild s (.settleLeaf j r)).registry, x ∈ seen := by
        intro x hx
        simp only [stepBuild, settleStep] at hx
        exact hsub x (Finset.mem_of_mem_erase hx)
      rw [ih seen (stepBuild s (.settleLeaf j r)) hwf.2 hsub' id]
      simp only [stepBuild, settleStep, capturedB, settledInB, List.any_cons]
      by_cases hij : id = j
      · subst hij
        have hcap := wfCapture_not_captured t seen id hwf.2 hwf.1
        simp only [capturedB] at hcap
        simp [Finset.mem_erase, hcap]
      · simp [Finset.mem_erase, Ne.symm hij, hij]
    | cancelOverall =>
      rw [runBuild_cons]
      have hsub' : ∀ x ∈ (stepBuild s BuildEvent.cancelOverall).registry, x ∈ seen :=
        fun x hx => hsub x hx
      rw [ih seen (stepBuild s .cancelOverall) (by simpa [wfCapture] using hwf) hsub' id]
      simp only [stepBuild, buildCancel, capturedB, settledInB, List.any_cons]
      simp
    | finish r =>
      rw [runBuild_cons]
      have hsub' : ∀ x ∈ (stepBuild s (BuildEvent.finish r)).registry, x ∈ seen :=
        fun x hx => hsub x hx
      rw [ih seen (stepBuild s (.finish r)) (by simpa [wfCapture] using hwf) hsub' id]
      simp only [stepBuild, finishStep, capturedB, settledInB, List.any_cons]
      simp

/-- C2 witness: on the concrete well-formed trace capture 1, capture 2,
settle 1, the registry afterwards holds id 2 (captured, not settled) and
does not hold id 1 (settled). -/
theorem c2_capture_registry_shrinks_witness :
    (wfCapture [] [BuildEvent.capture 1, BuildEvent.capture 2,
        BuildEvent.settleLeaf 1 (.fulfilled 0)] = true) ∧
    (2 ∈ (runBuild buildInit [BuildEvent.capture 1, BuildEvent.capture 2,
        BuildEvent.settleLeaf 1 (.fulfilled 0)]).registry ↔
      ((2 ∈ buildInit.registry ∨
          capturedB 2 [BuildEvent.capture 1, BuildEvent.capture 2,
            BuildEvent.settleLeaf 1 (.fulfilled 0)] = true) ∧
        settledInB 2 [BuildEvent.capture 1, BuildEvent.capture 2,
          BuildEvent.settleLeaf 1 (.fulfilled 0)] = false)) :=
  ⟨by decide,
   c2_capture_registry_shrinks _ [] buildInit (by decide)
     (by intro x hx; simp [buildInit] at hx) 2⟩

/-- C3: in `buildCancellablePromise`, the overall promise is exactly the
procedure's own returned promise: if the procedure runs to completion
with a value `v` (in particular when it catches every `Cancellation`
propagated to its captured promises), the overall promise resolves with
`v` — whatever captures, settlements and cancellations happened before;
the cancel operation never directly settles the overall promise (it only
cancels the currently captured promises); and in the concrete
swallowed-cancellation scenario of the test suite, both captured promises
are rejected with a `Cancellation` while the overall promise still
fulfills with the procedure's value 42. -/
theorem c3_swallowed_cancellation (trace : List BuildEvent) (v : Nat)
    (hnf : noFinishB trace = true) :
    ((runBuild buildInit (trace ++ [BuildEvent.finish (.fulfilled v)])).overall =
      some (.fulfilled v)) ∧
    (∀ (r : Option String) (s : BuildState), (buildCancel r s).overall = s.overall) ∧
    ((runBuild buildInit swallowScenario).overall = some (.fulfilled 42)) ∧
    ((runBuild buildInit swallowScenario).leaves 1 =
      some ⟨some (.rejected (.cancellation (mkCancellation none))), true⟩) ∧
    ((runBuild buildInit swallowScenario).leaves 2 =
      some ⟨some (.rejected (.cancellation (mkCancellation none))), true⟩) ∧
    ((runBuild buildInit swallowScenario).registry = ∅) := by
  refine ⟨?_, fun r s => rfl, ?_, ?_, ?_, ?_⟩
  · rw [runBuild_append, runBuild_singleton]
    have h : (runBuild buildInit trace).overall = none :=
      overall_of_noFinish trace buildInit hnf
    simp [stepBuild, finishStep, h]
  · simp [swallowScenario, runBuild, stepBuild, captureStep, settleStep, finishStep,
      buildCancel, buildInit]
  · simp [swallowScenario, runBuild, stepBuild, captureStep, settleStep, finishStep,
      buildCancel, buildInit, pendingLeaf, leafCancel, leafSettle, mkCancellation]
  · simp [swallowScenario, runBuild, stepBuild, captureStep, settleStep, finishStep,
      buildCancel, buildInit, pendingLeaf, leafCancel, leafSettle, mkCancellation]
  · decide

/-- C3 witness: instantiated at the empty prefix trace and the value 42. -/
theorem c3_swallowed_cancellation_witness :
    (noFinishB [] = true) ∧
    ((runBuild buildInit ([] ++ [BuildEvent.finish (.fulfilled 42)])).overall =
      some (.fulfilled 42)) :=
  ⟨rfl, (c3_swallowed_cancellation [] 42 rfl).1⟩

/-- C9: the cancel operation of `buildCancellablePromise` records no
persistent cancel-requested state: it cancels only the promises in the
registry at the instant it runs.  For every trace `t1` not involving a
given promise id, followed by a `cancel()` call, followed by any trace
`t2` with no further cancel (in which the promise may be captured and
settle), that promise never receives a cancel invocation from the earlier
call — in particular, cancelling before the first capture (empty `t1`)
has no effect on any subsequently captured promise. -/
theorem c9_cancel_not_persistent (t1 t2 : List BuildEvent) (id : Nat)
    (h1 : idFreeB id t1 = true) (h2 : noCancelB t2 = true) :
    neverCancelled
      ((runBuild buildInit (t1 ++ BuildEvent.cancelOverall :: t2)).leaves id) = true := by
  rw [runBuild_append, runBuild_cons]
  have hnone : (runBuild buildInit t1).leaves id = none :=
    leaves_none_of_idFree t1 buildInit id h1 rfl
  refine neverCancelled_of_noCancel t2 _ id h2 ?_
  simp [stepBuild, buildCancel, hnone, neverCancelled]

/-- C9 witness: cancel before the first capture, then capture promise 1:
promise 1 never receives a cancel invocation. -/
theorem c9_cancel_not_persistent_witness :
    (idFreeB 1 [] = true) ∧ (noCancelB [BuildEvent.capture 1] = true) ∧
    neverCancelled
      ((runBuild buildInit
        ([] ++ BuildEvent.cancelOverall :: [BuildEvent.capture 1])).leaves 1) = true :=
  ⟨rfl, by decide, c9_cancel_not_persistent [] [BuildEvent.capture 1] 1 rfl (by decide)⟩

end RCP
